import Mathlib

set_option maxHeartbeats 1000000

/-!
Verification development for the event-type composition and validation engine
of `src/apps/backend/src/lib/events.tsx` (the `logEvent` entry point, its
event-type registry, closure resolver, validation pipeline and time
resolution), shallowly embedded in Lean.

JSON-like payload values are modelled by `Value`; `yup` object schemas, as
used by the file, are modelled by `DataSchema`; event types are the recursive
`EventType`; `logEvent` is a pure function from its inputs (with the ambient
current time passed explicitly) to `Except LogError EventRecord`, where a
thrown `StackAssertionError` or rethrown error is an `error` result and the
single terminal `prismaClient.event.create` call corresponds to an `ok`
result carrying the inserted record.
-/

namespace Stack

/-- A JSON-like payload value, modelling the `data` argument of `logEvent`
(`yup` validates arbitrary JavaScript values; objects are ordered key/value
lists, with lookup returning the first binding of a key). -/
inductive Value where
  | vStr : String → Value
  | vNum : Int → Value
  | vBool : Bool → Value
  | vNull : Value
  | vObj : List (String × Value) → Value

/-- Property access on an object payload: the value bound to `name`, if any. -/
def lookupField : List (String × Value) → String → Option Value
  | [], _ => none
  | (k, v) :: rest, name => if k = name then some v else lookupField rest name

/-- Modelled from the spec: the uuid string validator of the schema primitive
layer (`yupString().uuid()` is imported from `stack-shared/schema-fields`,
which is outside the repository snapshot). Modelled as the hyphenated
8-4-4-4-12 shape; no claim depends on the exact predicate. -/
def isUuidLike (s : String) : Bool :=
  s.length = 36 && ([8, 13, 18, 23].all fun i => s.toList.getD i ' ' = '-')

/-- Modelled from the spec: the url string validator (`urlSchema` is imported
from `stack-shared/schema-fields`, outside the snapshot). No claim depends on
the exact predicate. -/
def isUrlLike (s : String) : Bool :=
  s.startsWith "http://" || s.startsWith "https://"

/-- The field-level validators used by the event-type schemas in the file:
plain string, uuid string, enum-constrained string, url string, object-typed
field (`yupObject()` with no declared fields), and mixed/any (`yupMixed()`). -/
inductive FieldKind where
  | string
  | stringUuid
  | stringOneOf (allowed : List String)
  | urlString
  | objectAny
  | mixed
deriving DecidableEq

/-- Does a present, non-null field value satisfy the field-level validator? -/
def FieldKind.passes : FieldKind → Value → Bool
  | .string, .vStr _ => true
  | .stringUuid, .vStr s => isUuidLike s
  | .stringOneOf allowed, .vStr s => allowed.contains s
  | .urlString, .vStr s => isUrlLike s
  | .objectAny, .vObj _ => true
  | .mixed, _ => true
  | _, _ => false

/-- One declared field of a `yupObject` schema: its validator plus the
required/optional and nullable markers (e.g. `yupString().required()` is
`required := true, nullable := false`; `yupMixed().nullable().optional()` is
`required := false, nullable := true`). -/
structure FieldSchema where
  kind : FieldKind
  required : Bool
  nullable : Bool
deriving DecidableEq

/-- What a `yup` schema application can throw: a `yup.ValidationError`, or any
other error (custom schemas may throw arbitrary errors). -/
inductive SchemaError where
  | validationError (message : String)
  | otherError (message : String)
deriving DecidableEq

/-- A `yup.Schema` as usable in an `EventType`. The `object` constructor
models the `yupObject({...})` schemas declared in the file; since `logEvent`
accepts any `yup.Schema<any>`, the `throwing` constructor models an arbitrary
schema whose `validate` call throws the given error on every input. -/
inductive DataSchema where
  | object (fields : List (String × FieldSchema))
  | throwing (error : SchemaError)
deriving DecidableEq

/-- Check one declared field against the (possibly absent) payload value bound
to it, producing the validation error message if it fails. -/
def checkField (name : String) (fs : FieldSchema) : Option Value → Option String
  | none => if fs.required then some (name ++ " is a required field") else none
  | some .vNull => if fs.nullable then none else some (name ++ " must not be null")
  | some v => if fs.kind.passes v then none else some (name ++ " is not of the expected type")

/-- Check every declared field of an object schema against the payload
object, returning the first failure. -/
def checkDeclaredFields : List (String × FieldSchema) → List (String × Value) → Option String
  | [], _ => none
  | (name, fs) :: rest, kvs =>
    match checkField name fs (lookupField kvs name) with
    | some msg => some msg
    | none => checkDeclaredFields rest kvs

/-- `schema.validate(data, { strict: true, stripUnknown: false })` as invoked
by `logEvent`: strict mode performs no implicit type coercion (the input is
returned unchanged on success, no casts or defaults are applied), and
`stripUnknown: false` keeps fields the schema does not declare. An object
schema requires the input to be an object and every declared field to check
out; a `throwing` schema throws its error. -/
def DataSchema.validate : DataSchema → Value → Except SchemaError Value
  | .throwing e, _ => .error e
  | .object fields, .vObj kvs =>
    match checkDeclaredFields fields kvs with
    | some msg => .error (.validationError msg)
    | none => .ok (.vObj kvs)
  | .object _, _ => .error (.validationError "the value must be an object")

/-- An event type: an identifier, the schema for the data it contributes, and
the ordered list of parent types it inherits from (`type EventType` in the
file). The structure is recursive because `inherits` holds the parent
definitions themselves, not identifiers. -/
inductive EventType where
  | mk (id : String) (dataSchema : DataSchema) (inherits : List EventType)

def EventType.id : EventType → String
  | .mk i _ _ => i

def EventType.dataSchema : EventType → DataSchema
  | .mk _ s _ => s

def EventType.inherits : EventType → List EventType
  | .mk _ _ inh => inh

mutual

/-- Structural equality of event types. In the source the closure set and the
registry compare JavaScript object references; each declared type is a single
object, so distinct declared types are distinguished by their content and
reference equality coincides with this structural equality. -/
def EventType.beq : EventType → EventType → Bool
  | .mk i1 s1 h1, .mk i2 s2 h2 => i1 = i2 && s1 = s2 && EventType.beqList h1 h2
termination_by structural e => e

def EventType.beqList : List EventType → List EventType → Bool
  | [], [] => true
  | a :: as, b :: bs => EventType.beq a b && EventType.beqList as bs
  | _, _ => false
termination_by structural l => l

end

mutual

theorem EventType.eq_of_beq : ∀ (a b : EventType), EventType.beq a b = true → a = b
  | .mk i1 s1 h1, .mk i2 s2 h2, h => by
    simp only [EventType.beq, Bool.and_eq_true, decide_eq_true_eq] at h
    obtain ⟨⟨hi, hs⟩, hl⟩ := h
    subst hi; subst hs
    exact congrArg (EventType.mk i1 s1) (EventType.eqList_of_beqList h1 h2 hl)
termination_by structural a => a

theorem EventType.eqList_of_beqList :
    ∀ (l1 l2 : List EventType), EventType.beqList l1 l2 = true → l1 = l2
  | [], [], _ => rfl
  | a :: as, b :: bs, h => by
    simp only [EventType.beqList, Bool.and_eq_true] at h
    rw [EventType.eq_of_beq a b h.1, EventType.eqList_of_beqList as bs h.2]
termination_by structural l1 => l1

end

mutual

theorem EventType.beq_refl : ∀ (a : EventType), EventType.beq a a = true
  | .mk i s hs => by
    simp only [EventType.beq, Bool.and_eq_true, decide_eq_true_eq]
    refine ⟨⟨?_, ?_⟩, EventType.beqList_refl hs⟩ <;> simp
termination_by structural a => a

theorem EventType.beqList_refl : ∀ (l : List EventType), EventType.beqList l l = true
  | [] => rfl
  | a :: as => by
    simp only [EventType.beqList, Bool.and_eq_true]
    exact ⟨EventType.beq_refl a, EventType.beqList_refl as⟩
termination_by structural l => l

end

instance : DecidableEq EventType := fun a b =>
  if h : EventType.beq a b = true then .isTrue (EventType.eq_of_beq a b h)
  else .isFalse (fun he => h (he ▸ EventType.beq_refl a))

/-- Modelled from the spec: the list of supported HTTP method names
(`HTTP_METHODS` is imported from `stack-shared/utils/http`, outside the
snapshot; the spec only calls it an enum-constrained string validator). -/
def HTTP_METHODS : List String :=
  ["GET", "POST", "PUT", "DELETE", "PATCH", "HEAD", "OPTIONS"]

/-- `ProjectEventType` from the file: id `$project`, schema
`yupObject({ projectId: yupString().required() })`, no parents. -/
def ProjectEventType : EventType :=
  .mk "$project"
    (.object [("projectId", ⟨.string, true, false⟩)])
    []

/-- `ProjectActivityEventType`: id `$project-activity`, empty object schema,
inherits from `ProjectEventType`. -/
def ProjectActivityEventType : EventType :=
  .mk "$project-activity"
    (.object [])
    [ProjectEventType]

/-- `UserActivityEventType`: id `$user-activity`, schema
`yupObject({ userId: yupString().uuid().required() })`, inherits from
`ProjectActivityEventType`. -/
def UserActivityEventType : EventType :=
  .mk "$user-activity"
    (.object [("userId", ⟨.stringUuid, true, false⟩)])
    [ProjectActivityEventType]

/-- `ApiRequestEventType`: id `$api-request`, schema with `method`, `url`,
`body` (nullable optional mixed) and `headers` (object, required), inherits
from `ProjectEventType`. -/
def ApiRequestEventType : EventType :=
  .mk "$api-request"
    (.object
      [("method", ⟨.stringOneOf HTTP_METHODS, true, false⟩),
       ("url", ⟨.urlString, true, false⟩),
       ("body", ⟨.mixed, false, true⟩),
       ("headers", ⟨.objectAny, true, false⟩)])
    [ProjectEventType]

/-- `Object.values(SystemEventTypes)`: the four registered system event
types, in declaration order. -/
def systemEventTypesList : List EventType :=
  [ProjectEventType, ProjectActivityEventType, UserActivityEventType, ApiRequestEventType]

/-- `systemEventTypesById`: the registry index from identifier to
definition, built once from the registered types. -/
def systemEventTypesById : List (String × EventType) :=
  systemEventTypesList.map fun eventType => (eventType.id, eventType)

/-- `systemEventTypesById.has(id)`: membership of an identifier in the
registry index. -/
def systemEventTypesByIdHas (id : String) : Bool :=
  (systemEventTypesById.map Prod.fst).contains id

/-- The `options.time` argument: `Date | { start: Date, end: Date }`
(instants are integer timestamps in the model). -/
inductive TimeOrTimeRange where
  | date (t : Int)
  | timeRange (start «end» : Int)

/-- The ways `logEvent` can throw. The first two are the
`StackAssertionError`s of the type-set precondition loop; `invalidEventData`
is the `StackAssertionError` thrown when a schema application raises a
`yup.ValidationError`, carrying exactly the context attached in the source
(`eventType`, the payload at the point of failure, the underlying error, the
original payload and the original requested event type list); `rethrownError`
is a non-`ValidationError` error rethrown unchanged. -/
inductive LogError where
  | invalidSystemEventType (eventType : EventType)
  | nonSystemEventType (eventType : EventType)
  | invalidEventData (eventType : EventType) (dataAtFailure : Value)
      (error : String) (originalData : Value) (originalEventTypes : List EventType)
  | rethrownError (message : String)

/-- The record handed to `prismaClient.event.create`. -/
structure EventRecord where
  systemEventTypeIds : List String
  data : Value
  isWide : Bool
  eventStartedAt : Int
  eventEndedAt : Int

/-- `s.startsWith(p)`, computed on the underlying character lists (the
built-in `String.startsWith` is extensionally the same but does not reduce
definitionally). -/
def strStartsWith (s p : String) : Bool :=
  s.toList.take p.toList.length = p.toList

/-- The `assert all event types are valid` loop of `logEvent`: each requested
type must have a `$`-prefixed identifier that is present in the registry
index; the first offender aborts the whole call. -/
def checkEventTypes : List EventType → Except LogError Unit
  | [] => .ok ()
  | eventType :: rest =>
    if strStartsWith eventType.id "$" then
      if systemEventTypesByIdHas eventType.id then checkEventTypes rest
      else .error (.invalidSystemEventType eventType)
    else .error (.nonSystemEventType eventType)

mutual

/-- The inner `addEventType` of `logEvent`: skip a type already in the
closure accumulator, otherwise append it and recurse into its parents in
declared order (depth-first). The JavaScript `Set` keeps insertion order and
deduplicates by object reference, modelled by an ordered list deduplicated by
`EventType` equality. -/
def addEventType (allEventTypes : List EventType) : EventType → List EventType
  | .mk i s inh =>
    if EventType.mk i s inh ∈ allEventTypes then allEventTypes
    else addEventTypeEach (allEventTypes ++ [EventType.mk i s inh]) inh
termination_by structural e => e

/-- `list.forEach(addEventType)` over the accumulator. -/
def addEventTypeEach (allEventTypes : List EventType) : List EventType → List EventType
  | [] => allEventTypes
  | t :: rest => addEventTypeEach (addEventType allEventTypes t) rest
termination_by structural l => l

end

/-- The `validate & transform data` loop of `logEvent`: apply each closure
member's schema to the running payload; a `yup.ValidationError` becomes a
`StackAssertionError` carrying the failure context, any other error is
rethrown unchanged. -/
def validateEventTypes (originalData : Value) (originalEventTypes : List EventType) :
    List EventType → Value → Except LogError Value
  | [], data => .ok data
  | eventType :: rest, data =>
    match eventType.dataSchema.validate data with
    | .ok data2 => validateEventTypes originalData originalEventTypes rest data2
    | .error (.validationError msg) =>
      .error (.invalidEventData eventType data msg originalData originalEventTypes)
    | .error (.otherError msg) => .error (.rethrownError msg)

/-- `logEvent` from the file, with the ambient current time (`new Date()`)
passed as `now` and the terminal `prismaClient.event.create` call modelled by
returning the inserted record. `timeOrTimeRange` is `options.time ?? new
Date()`; `timeRange` unpacks it; `isWide` is the reference-equality test
`timeOrTimeRange === timeRange`, which holds exactly when the caller supplied
a `{ start, end }` object (for a `Date`, `timeRange` is a freshly built
object). -/
def logEvent (now : Int) (eventTypes : List EventType) (data : Value)
    (time : Option TimeOrTimeRange) : Except LogError EventRecord :=
  let timeOrTimeRange : TimeOrTimeRange := time.getD (.date now)
  let timeRange : Int × Int :=
    match timeOrTimeRange with
    | .timeRange s e => (s, e)
    | .date t => (t, t)
  let isWide : Bool :=
    match timeOrTimeRange with
    | .timeRange _ _ => true
    | .date _ => false
  match checkEventTypes eventTypes with
  | .error e => .error e
  | .ok _ =>
    let allEventTypes := addEventTypeEach [] eventTypes
    match validateEventTypes data eventTypes allEventTypes data with
    | .error e => .error e
    | .ok finalData =>
      .ok
        { systemEventTypeIds := allEventTypes.map EventType.id
          data := finalData
          isWide := isWide
          eventStartedAt := timeRange.1
          eventEndedAt := timeRange.2 }

/-- How often the persistence sink runs for a given call outcome: the
`prismaClient.event.create` call is the final statement of `logEvent`, so it
runs exactly once when nothing threw and not at all otherwise. -/
def sinkInvocations (result : Except LogError EventRecord) : Nat :=
  match result with
  | .ok _ => 1
  | .error _ => 0

/-- Modelled from the spec, section 4.3: the validation pipeline runs each
closure member's schema against the current payload in sequence, the output
of each application becoming the input of the next; the first rejection stops
the pipeline. Defined from the spec's words to compare against the `logEvent`
implementation. -/
def specValidatePipeline : List EventType → Value → Except SchemaError Value
  | [], data => .ok data
  | eventType :: rest, data =>
    match eventType.dataSchema.validate data with
    | .ok data2 => specValidatePipeline rest data2
    | .error e => .error e

/-- Reachability through the `inherits` relation: the reflexive-transitive
closure of the parent step. -/
inductive Reaches : EventType → EventType → Prop
  | refl (t : EventType) : Reaches t t
  | step {a b c : EventType} : b ∈ a.inherits → Reaches b c → Reaches a c

/-! Helper lemmas. -/

theorem addEventType_def (acc : List EventType) (et : EventType) :
    addEventType acc et =
      if et ∈ acc then acc else addEventTypeEach (acc ++ [et]) et.inherits := by
  cases et
  rfl

/-- On success, a schema application returns its input unchanged (strict mode
applies no coercion, and unknown fields are not stripped). -/
theorem DataSchema.validate_ok_eq (s : DataSchema) (v v' : Value)
    (h : s.validate v = .ok v') : v' = v := by
  cases s with
  | throwing e => simp [DataSchema.validate] at h
  | object fields =>
    cases v with
    | vObj kvs =>
      cases hc : checkDeclaredFields fields kvs with
      | some msg => simp [DataSchema.validate, hc] at h
      | none =>
        simp only [DataSchema.validate, hc] at h
        exact (Except.ok.inj h).symm
    | vStr s => simp [DataSchema.validate] at h
    | vNum n => simp [DataSchema.validate] at h
    | vBool b => simp [DataSchema.validate] at h
    | vNull => simp [DataSchema.validate] at h

/-- The catch block of the validation loop, as a function of the thrown
error: a `yup.ValidationError` becomes the `StackAssertionError` carrying the
failure context, anything else is rethrown unchanged. -/
def logErrorOfSchemaError (eventType : EventType) (dataAtFailure : Value)
    (originalData : Value) (originalEventTypes : List EventType) :
    SchemaError → LogError
  | .validationError msg =>
    .invalidEventData eventType dataAtFailure msg originalData originalEventTypes
  | .otherError msg => .rethrownError msg

/-- The validation loop of `logEvent` succeeds exactly when the pipeline of
the spec does, with the same final payload. -/
theorem validateEventTypes_ok_iff (originalData : Value) (originalEventTypes : List EventType)
    (l : List EventType) (d d' : Value) :
    validateEventTypes originalData originalEventTypes l d = .ok d' ↔
      specValidatePipeline l d = .ok d' := by
  induction l generalizing d with
  | nil => simp [validateEventTypes, specValidatePipeline]
  | cons et rest ih =>
    cases hv : et.dataSchema.validate d with
    | ok d2 => simp [validateEventTypes, specValidatePipeline, hv, ih]
    | error e =>
      cases e with
      | validationError msg => simp [validateEventTypes, specValidatePipeline, hv]
      | otherError msg => simp [validateEventTypes, specValidatePipeline, hv]

/-- Restatement of `logEvent` with its control flow exposed. -/
theorem logEvent_eq (now : Int) (eventTypes : List EventType) (data : Value)
    (time : Option TimeOrTimeRange) :
    logEvent now eventTypes data time =
      match checkEventTypes eventTypes with
      | .error e => .error e
      | .ok _ =>
        match validateEventTypes data eventTypes (addEventTypeEach [] eventTypes) data with
        | .error e => .error e
        | .ok finalData =>
          .ok
            { systemEventTypeIds := (addEventTypeEach [] eventTypes).map EventType.id
              data := finalData
              isWide :=
                match time.getD (.date now) with
                | .timeRange _ _ => true
                | .date _ => false
              eventStartedAt :=
                match time.getD (.date now) with
                | .timeRange s _ => s
                | .date t => t
              eventEndedAt :=
                match time.getD (.date now) with
                | .timeRange _ e => e
                | .date t => t } := by
  cases time with
  | none => rfl
  | some tt => cases tt <;> rfl

/-- Inversion of a successful `logEvent` call: the precondition passed, the
whole closure validated the payload into the stored `data`, and the stored
identifier list and time fields are as constructed. -/
theorem logEvent_ok_inv (now : Int) (eventTypes : List EventType) (data : Value)
    (time : Option TimeOrTimeRange) (r : EventRecord)
    (h : logEvent now eventTypes data time = .ok r) :
    checkEventTypes eventTypes = .ok () ∧
    validateEventTypes data eventTypes (addEventTypeEach [] eventTypes) data = .ok r.data ∧
    r.systemEventTypeIds = (addEventTypeEach [] eventTypes).map EventType.id ∧
    r.isWide = (match time.getD (.date now) with
      | .timeRange _ _ => true
      | .date _ => false) ∧
    r.eventStartedAt = (match time.getD (.date now) with
      | .timeRange s _ => s
      | .date t => t) ∧
    r.eventEndedAt = (match time.getD (.date now) with
      | .timeRange _ e => e
      | .date t => t) := by
  rw [logEvent_eq] at h
  rcases hc : checkEventTypes eventTypes with e | u
  · rw [hc] at h
    simp at h
  · rw [hc] at h
    rcases hv : validateEventTypes data eventTypes (addEventTypeEach [] eventTypes) data with e | fd
    · rw [hv] at h
      simp at h
    · rw [hv] at h
      simp only [Except.ok.injEq] at h
      subst h
      cases u
      exact ⟨rfl, rfl, rfl, rfl, rfl, rfl⟩

mutual

/-- The closure accumulator only grows. -/
theorem mem_addEventType_of_mem :
    ∀ (acc : List EventType) (e x : EventType), x ∈ acc → x ∈ addEventType acc e
  | acc, .mk i s inh, x, hx => by
    simp only [addEventType]
    by_cases h : EventType.mk i s inh ∈ acc
    · simpa [h] using hx
    · simp only [h, if_false]
      exact mem_addEventTypeEach_of_mem (acc ++ [EventType.mk i s inh]) inh x
        (List.mem_append_left _ hx)
termination_by structural acc e => e

theorem mem_addEventTypeEach_of_mem :
    ∀ (acc : List EventType) (l : List EventType) (x : EventType),
      x ∈ acc → x ∈ addEventTypeEach acc l
  | _, [], _, hx => hx
  | acc, t :: rest, x, hx =>
    mem_addEventTypeEach_of_mem (addEventType acc t) rest x
      (mem_addEventType_of_mem acc t x hx)
termination_by structural acc l => l

end

/-- The processed type itself ends up in the closure. -/
theorem self_mem_addEventType (acc : List EventType) (e : EventType) :
    e ∈ addEventType acc e := by
  rw [addEventType_def]
  by_cases h : e ∈ acc
  · simpa [h] using h
  · simp only [h, if_false]
    exact mem_addEventTypeEach_of_mem _ _ _ (List.mem_append_right _ (List.mem_singleton.mpr rfl))

/-- Every processed root ends up in the closure. -/
theorem mem_addEventTypeEach_of_mem_list (acc : List EventType) (l : List EventType)
    (t : EventType) (ht : t ∈ l) : t ∈ addEventTypeEach acc l := by
  induction l generalizing acc with
  | nil => cases ht
  | cons a rest ih =>
    rcases List.mem_cons.mp ht with h | h
    · subst h
      exact mem_addEventTypeEach_of_mem (addEventType acc t) rest t (self_mem_addEventType acc t)
    · exact ih (addEventType acc a) h

mutual

/-- Soundness of the traversal: everything in the closure of one root was
already in the accumulator or is reachable from that root. -/
theorem mem_addEventType_sound :
    ∀ (acc : List EventType) (e x : EventType),
      x ∈ addEventType acc e → x ∈ acc ∨ Reaches e x
  | acc, .mk i s inh, x, hx => by
    simp only [addEventType] at hx
    by_cases h : EventType.mk i s inh ∈ acc
    · rw [if_pos h] at hx
      exact Or.inl hx
    · rw [if_neg h] at hx
      rcases mem_addEventTypeEach_sound (acc ++ [EventType.mk i s inh]) inh x hx with
        hmem | ⟨t, ht, hr⟩
      · rcases List.mem_append.mp hmem with h1 | h2
        · exact Or.inl h1
        · have hx2 : x = EventType.mk i s inh := List.mem_singleton.mp h2
          subst hx2
          exact Or.inr (Reaches.refl _)
      · exact Or.inr (Reaches.step (show t ∈ (EventType.mk i s inh).inherits from ht) hr)
termination_by structural acc e x hx => e

/-- Soundness of the traversal over a list of roots. -/
theorem mem_addEventTypeEach_sound :
    ∀ (acc l : List EventType) (x : EventType),
      x ∈ addEventTypeEach acc l → x ∈ acc ∨ ∃ t ∈ l, Reaches t x
  | _, [], _, hx => Or.inl hx
  | acc, t :: rest, x, hx => by
    rcases mem_addEventTypeEach_sound (addEventType acc t) rest x hx with h1 | ⟨u, hu, hr⟩
    · rcases mem_addEventType_sound acc t x h1 with h2 | h2
      · exact Or.inl h2
      · exact Or.inr ⟨t, List.mem_cons_self t rest, h2⟩
    · exact Or.inr ⟨u, List.mem_cons_of_mem t hu, hr⟩
termination_by structural acc l x hx => l

end

mutual

/-- Everything added by a traversal step has its parents in the result:
the traversal recurses into the parents right after inserting a type. -/
theorem closedRel_addEventType :
    ∀ (acc : List EventType) (e a b : EventType),
      a ∈ addEventType acc e → a ∉ acc → b ∈ a.inherits → b ∈ addEventType acc e
  | acc, .mk i s inh, a, b, ha, hna, hb => by
    simp only [addEventType] at ha ⊢
    by_cases h : EventType.mk i s inh ∈ acc
    · rw [if_pos h] at ha
      exact absurd ha hna
    · rw [if_neg h] at ha
      rw [if_neg h]
      by_cases h2 : a ∈ acc ++ [EventType.mk i s inh]
      · have ha2 : a = EventType.mk i s inh := by
          rcases List.mem_append.mp h2 with h3 | h3
          · exact absurd h3 hna
          · exact List.mem_singleton.mp h3
        subst ha2
        exact mem_addEventTypeEach_of_mem_list _ inh b hb
      · exact closedRel_addEventTypeEach (acc ++ [EventType.mk i s inh]) inh a b ha h2 hb
termination_by structural acc e a b ha hna hb => e

theorem closedRel_addEventTypeEach :
    ∀ (acc l : List EventType) (a b : EventType),
      a ∈ addEventTypeEach acc l → a ∉ acc → b ∈ a.inherits → b ∈ addEventTypeEach acc l
  | _, [], _, _, ha, hna, _ => absurd ha hna
  | acc, t :: rest, a, b, ha, hna, hb => by
    by_cases h : a ∈ addEventType acc t
    · have hbmem : b ∈ addEventType acc t := closedRel_addEventType acc t a b h hna hb
      exact mem_addEventTypeEach_of_mem (addEventType acc t) rest b hbmem
    · exact closedRel_addEventTypeEach (addEventType acc t) rest a b ha h hb
termination_by structural acc l a b ha hna hb => l

end

/-- The resolved closure is closed under the `inherits` step. -/
theorem closure_closed (l : List EventType) (a b : EventType)
    (ha : a ∈ addEventTypeEach [] l) (hb : b ∈ a.inherits) :
    b ∈ addEventTypeEach [] l :=
  closedRel_addEventTypeEach [] l a b ha (List.not_mem_nil a) hb

/-- Completeness of the traversal: the closure absorbs reachability. -/
theorem closure_complete (l : List EventType) (x y : EventType) (hr : Reaches x y) :
    x ∈ addEventTypeEach [] l → y ∈ addEventTypeEach [] l := by
  induction hr with
  | refl t => exact id
  | step hb _ ih => exact fun hx => ih (closure_closed l _ _ hx hb)

/-- The closure of a requested list is exactly the set of types reachable
from a requested type through `inherits`. -/
theorem mem_closure_iff (l : List EventType) (x : EventType) :
    x ∈ addEventTypeEach [] l ↔ ∃ t ∈ l, Reaches t x := by
  constructor
  · intro h
    rcases mem_addEventTypeEach_sound [] l x h with h1 | h2
    · exact absurd h1 (List.not_mem_nil x)
    · exact h2
  · rintro ⟨t, ht, hr⟩
    exact closure_complete l t x hr (mem_addEventTypeEach_of_mem_list [] l t ht)

mutual

/-- The traversal never inserts a type twice. -/
theorem nodup_addEventType :
    ∀ (acc : List EventType) (e : EventType), acc.Nodup → (addEventType acc e).Nodup
  | acc, .mk i s inh, hacc => by
    simp only [addEventType]
    by_cases h : EventType.mk i s inh ∈ acc
    · rw [if_pos h]
      exact hacc
    · rw [if_neg h]
      refine nodup_addEventTypeEach (acc ++ [EventType.mk i s inh]) inh ?_
      simp [List.nodup_append, hacc, h]
termination_by structural acc e hacc => e

theorem nodup_addEventTypeEach :
    ∀ (acc l : List EventType), acc.Nodup → (addEventTypeEach acc l).Nodup
  | _, [], hacc => hacc
  | acc, t :: rest, hacc =>
    nodup_addEventTypeEach (addEventType acc t) rest (nodup_addEventType acc t hacc)
termination_by structural acc l hacc => l

end

/-- If some requested type fails the precondition (identifier not
`$`-prefixed, or absent from the registry index), the precondition loop
throws one of its two `StackAssertionError`s. -/
theorem checkEventTypes_error_of_bad (l : List EventType)
    (h : ∃ et ∈ l,
      ¬(strStartsWith et.id "$" = true ∧ systemEventTypesByIdHas et.id = true)) :
    ∃ et2, checkEventTypes l = .error (.invalidSystemEventType et2) ∨
      checkEventTypes l = .error (.nonSystemEventType et2) := by
  induction l with
  | nil =>
    rcases h with ⟨et, hmem, -⟩
    exact absurd hmem (List.not_mem_nil et)
  | cons a rest ih =>
    by_cases h1 : strStartsWith a.id "$" = true
    · by_cases h2 : systemEventTypesByIdHas a.id = true
      · have hstep : checkEventTypes (a :: rest) = checkEventTypes rest := by
          simp [checkEventTypes, h1, h2]
        rcases h with ⟨et, hmem, hbad⟩
        rcases List.mem_cons.mp hmem with he | he
        · subst he
          exact absurd ⟨h1, h2⟩ hbad
        · rcases ih ⟨et, he, hbad⟩ with ⟨et2, h3⟩
          exact ⟨et2, by rwa [hstep]⟩
      · exact ⟨a, Or.inl (by simp [checkEventTypes, h1, h2])⟩
    · exact ⟨a, Or.inr (by simp [checkEventTypes, h1])⟩

/-- A precondition failure is the result of the whole call, whatever the
payload and time were. -/
theorem logEvent_of_check_error (now : Int) (eventTypes : List EventType) (data : Value)
    (time : Option TimeOrTimeRange) (e : LogError)
    (hc : checkEventTypes eventTypes = .error e) :
    logEvent now eventTypes data time = .error e := by
  rw [logEvent_eq, hc]

/-- If the pipeline accepts a prefix of the closure and the next schema
rejects, the loop stops there with the corresponding error, whatever types
follow. -/
theorem validateEventTypes_append_fail (originalData : Value)
    (originalEventTypes : List EventType) (pre post : List EventType) (et : EventType)
    (d0 d : Value) (err : SchemaError)
    (hpre : specValidatePipeline pre d0 = .ok d)
    (hfail : et.dataSchema.validate d = .error err) :
    validateEventTypes originalData originalEventTypes (pre ++ et :: post) d0 =
      .error (logErrorOfSchemaError et d originalData originalEventTypes err) := by
  induction pre generalizing d0 with
  | nil =>
    have hd : d0 = d := by simpa [specValidatePipeline] using hpre
    subst hd
    cases err with
    | validationError msg => simp [validateEventTypes, hfail, logErrorOfSchemaError]
    | otherError msg => simp [validateEventTypes, hfail, logErrorOfSchemaError]
  | cons p pre ih =>
    cases hv : p.dataSchema.validate d0 with
    | ok d2 =>
      have hpre2 : specValidatePipeline pre d2 = .ok d := by
        simpa [specValidatePipeline, hv] using hpre
      simpa [validateEventTypes, hv] using ih d2 hpre2
    | error e =>
      rcases e with msg | msg <;> simp [specValidatePipeline, hv] at hpre

/-! The claims. -/

/-- C1: For every closure and payload, the final payload produced by
`logEvent` equals the result of applying each event type's `dataSchema`
sequentially in closure iteration order (each application in strict mode and
without stripping unknown fields, as embedded in `DataSchema.validate`), the
output of each application becoming the input to the next; and every
successful schema application returns its input unchanged, so fields not
declared by a schema survive unchanged into the next iteration. -/
theorem c1_final_payload_is_sequential_pipeline
    (now : Int) (eventTypes : List EventType) (data : Value)
    (time : Option TimeOrTimeRange) (r : EventRecord)
    (h : logEvent now eventTypes data time = .ok r) :
    specValidatePipeline (addEventTypeEach [] eventTypes) data = .ok r.data ∧
    ∀ (s : DataSchema) (v v' : Value), s.validate v = .ok v' → v' = v := by
  obtain ⟨-, hv, -, -, -, -⟩ := logEvent_ok_inv now eventTypes data time r h
  exact ⟨(validateEventTypes_ok_iff data eventTypes _ data r.data).mp hv,
    fun s v v' => DataSchema.validate_ok_eq s v v'⟩

/-- Witness for C1: a concrete successful call whose stored payload is the
sequential pipeline result. -/
theorem c1_witness :
    logEvent 0 [ProjectEventType] (Value.vObj [("projectId", Value.vStr "p")]) none =
      .ok { systemEventTypeIds := ["$project"]
            data := Value.vObj [("projectId", Value.vStr "p")]
            isWide := false
            eventStartedAt := 0
            eventEndedAt := 0 } ∧
    specValidatePipeline (addEventTypeEach [] [ProjectEventType])
        (Value.vObj [("projectId", Value.vStr "p")]) =
      .ok (Value.vObj [("projectId", Value.vStr "p")]) :=
  ⟨rfl,
    (c1_final_payload_is_sequential_pipeline 0 [ProjectEventType]
      (Value.vObj [("projectId", Value.vStr "p")]) none
      { systemEventTypeIds := ["$project"]
        data := Value.vObj [("projectId", Value.vStr "p")]
        isWide := false
        eventStartedAt := 0
        eventEndedAt := 0 } rfl).1⟩

/-- C2: If any requested type has an identifier that is not `$`-prefixed or
is not in the registry index, the whole call fails with one of the two
precondition errors, the sink observes zero invocations, and the outcome is
the same for every payload (the abort happens before any validation); the
rejection is all-or-nothing. -/
theorem c2_precondition_all_or_nothing
    (now : Int) (eventTypes : List EventType) (data : Value)
    (time : Option TimeOrTimeRange)
    (h : ∃ et ∈ eventTypes,
      ¬(strStartsWith et.id "$" = true ∧ systemEventTypesByIdHas et.id = true)) :
    sinkInvocations (logEvent now eventTypes data time) = 0 ∧
    (∀ data2 : Value,
      logEvent now eventTypes data2 time = logEvent now eventTypes data time) ∧
    ∃ et2, logEvent now eventTypes data time = .error (.invalidSystemEventType et2) ∨
      logEvent now eventTypes data time = .error (.nonSystemEventType et2) := by
  rcases checkEventTypes_error_of_bad eventTypes h with ⟨et2, hcase | hcase⟩
  · have hl : ∀ d : Value, logEvent now eventTypes d time =
        .error (.invalidSystemEventType et2) :=
      fun d => logEvent_of_check_error now eventTypes d time _ hcase
    exact ⟨by rw [hl data]; rfl, fun d2 => by rw [hl d2, hl data], et2, Or.inl (hl data)⟩
  · have hl : ∀ d : Value, logEvent now eventTypes d time =
        .error (.nonSystemEventType et2) :=
      fun d => logEvent_of_check_error now eventTypes d time _ hcase
    exact ⟨by rw [hl data]; rfl, fun d2 => by rw [hl d2, hl data], et2, Or.inr (hl data)⟩

/-- Witness for C2: a request containing a non-system type aborts with no
sink invocation. -/
theorem c2_witness :
    (∃ et ∈ [EventType.mk "custom" (.object []) []],
      ¬(strStartsWith et.id "$" = true ∧ systemEventTypesByIdHas et.id = true)) ∧
    sinkInvocations
      (logEvent 3 [EventType.mk "custom" (.object []) []] (Value.vObj []) none) = 0 := by
  have hbad : ∃ et ∈ [EventType.mk "custom" (.object []) []],
      ¬(strStartsWith et.id "$" = true ∧ systemEventTypesByIdHas et.id = true) :=
    ⟨EventType.mk "custom" (.object []) [], List.mem_singleton.mpr rfl, by decide⟩
  exact ⟨hbad,
    (c2_precondition_all_or_nothing 3 [EventType.mk "custom" (.object []) []]
      (Value.vObj []) none hbad).1⟩

/-- C3: An explicit start/end pair is persisted as given with
`isWide = true`, even when the two instants are equal: `isWide` records the
shape the caller supplied, not a comparison of the timestamps. -/
theorem c3_explicit_range_is_wide
    (now : Int) (eventTypes : List EventType) (data : Value)
    (s e : Int) (r : EventRecord)
    (h : logEvent now eventTypes data (some (.timeRange s e)) = .ok r) :
    r.eventStartedAt = s ∧ r.eventEndedAt = e ∧ r.isWide = true := by
  obtain ⟨-, -, -, hw, hs, he⟩ := logEvent_ok_inv now eventTypes data (some (.timeRange s e)) r h
  exact ⟨hs, he, hw⟩

/-- Witness for C3 with a degenerate interval: `start == end` still yields
`isWide = true`. -/
theorem c3_witness :
    logEvent 0 [ProjectEventType] (Value.vObj [("projectId", Value.vStr "p")])
        (some (.timeRange 7 7)) =
      .ok { systemEventTypeIds := ["$project"]
            data := Value.vObj [("projectId", Value.vStr "p")]
            isWide := true
            eventStartedAt := 7
            eventEndedAt := 7 } ∧
    ({ systemEventTypeIds := ["$project"]
       data := Value.vObj [("projectId", Value.vStr "p")]
       isWide := true
       eventStartedAt := 7
       eventEndedAt := 7 : EventRecord }.eventStartedAt = 7 ∧
     ({ systemEventTypeIds := ["$project"]
        data := Value.vObj [("projectId", Value.vStr "p")]
        isWide := true
        eventStartedAt := 7
        eventEndedAt := 7 : EventRecord }.eventEndedAt = 7 ∧
      { systemEventTypeIds := ["$project"]
        data := Value.vObj [("projectId", Value.vStr "p")]
        isWide := true
        eventStartedAt := 7
        eventEndedAt := 7 : EventRecord }.isWide = true)) :=
  ⟨rfl,
    c3_explicit_range_is_wide 0 [ProjectEventType]
      (Value.vObj [("projectId", Value.vStr "p")]) 7 7
      { systemEventTypeIds := ["$project"]
        data := Value.vObj [("projectId", Value.vStr "p")]
        isWide := true
        eventStartedAt := 7
        eventEndedAt := 7 } rfl⟩

/-- Bottom of the diamond inheritance graph of C4. -/
def dD : EventType := .mk "$d" (.object []) []

/-- Left middle node of the diamond: inherits from `dD`. -/
def dB : EventType := .mk "$b" (.object []) [dD]

/-- Right middle node of the diamond: inherits from `dD`. -/
def dC : EventType := .mk "$c" (.object []) [dD]

/-- Top of the diamond: inherits from both `dB` and `dC`. -/
def dA : EventType := .mk "$a" (.object []) [dB, dC]

/-- C4: For the diamond graph (`dA` inherits from `dB` and `dC`, which both
inherit from `dD`), the closure of `[dA]` is exactly the set
`{dA, dB, dC, dD}` with `dD` appearing exactly once (concretely, the
insertion-ordered list `[dA, dB, dD, dC]`); and in general every closure is
duplicate-free, so any type reached through several paths appears once. -/
theorem c4_diamond_closure_dedup :
    addEventTypeEach [] [dA] = [dA, dB, dD, dC] ∧
    (∀ x, x ∈ addEventTypeEach [] [dA] ↔ (x = dA ∨ x = dB ∨ x = dC ∨ x = dD)) ∧
    List.count dD (addEventTypeEach [] [dA]) = 1 ∧
    ∀ ets : List EventType, (addEventTypeEach [] ets).Nodup := by
  have hcl : addEventTypeEach [] [dA] = [dA, dB, dD, dC] := rfl
  refine ⟨rfl, ?_, by rw [hcl]; decide, fun ets => nodup_addEventTypeEach [] ets List.nodup_nil⟩
  intro x
  rw [hcl]
  simp only [List.mem_cons, List.mem_singleton, List.not_mem_nil, or_false]
  tauto

/-- C5: The closure of `[T]` is a superset of the closure of `T`'s own
`inherits` list: reachability through `inherits` is transitive. (The
`EventType` graph is acyclic by construction, being an inductive value.) -/
theorem c5_closure_transitive (et x : EventType)
    (h : x ∈ addEventTypeEach [] et.inherits) :
    x ∈ addEventTypeEach [] [et] := by
  rcases (mem_closure_iff et.inherits x).mp h with ⟨p, hp, hr⟩
  exact (mem_closure_iff [et] x).mpr ⟨et, List.mem_singleton.mpr rfl, Reaches.step hp hr⟩

/-- Witness for C5: the grandparent `ProjectEventType` lies in the closure of
`UserActivityEventType`'s parents and hence in the type's own closure. -/
theorem c5_witness :
    ProjectEventType ∈ addEventTypeEach [] UserActivityEventType.inherits ∧
    ProjectEventType ∈ addEventTypeEach [] [UserActivityEventType] :=
  ⟨by decide,
    c5_closure_transitive UserActivityEventType ProjectEventType (by decide)⟩

/-- C6: If a schema application in the pipeline rejects, the loop stops right
there — whatever part of the closure follows the offender is irrelevant to
the result — and the failure carries the offending event type, the payload at
the point of failure, the underlying schema error, the original unmodified
payload, and the original requested (pre-closure) event type list; an error
that is not a schema validation error is rethrown unchanged. -/
theorem c6_first_rejection_stops_pipeline
    (now : Int) (eventTypes : List EventType) (data d : Value)
    (time : Option TimeOrTimeRange) (pre post : List EventType) (et : EventType)
    (err : SchemaError)
    (hcheck : checkEventTypes eventTypes = .ok ())
    (hclosure : addEventTypeEach [] eventTypes = pre ++ et :: post)
    (hpre : specValidatePipeline pre data = .ok d)
    (hfail : et.dataSchema.validate d = .error err) :
    logEvent now eventTypes data time =
      .error (logErrorOfSchemaError et d data eventTypes err) := by
  have hval := validateEventTypes_append_fail data eventTypes pre post et data d err hpre hfail
  rw [logEvent_eq, hcheck]
  dsimp only
  rw [hclosure, hval]

/-- Witness for C6: a payload missing `projectId` makes `ProjectEventType`'s
schema reject, and the thrown failure carries the full context. -/
theorem c6_witness :
    checkEventTypes [ProjectEventType] = .ok () ∧
    addEventTypeEach [] [ProjectEventType] = [] ++ ProjectEventType :: [] ∧
    specValidatePipeline [] (Value.vObj []) = .ok (Value.vObj []) ∧
    ProjectEventType.dataSchema.validate (Value.vObj []) =
      .error (.validationError "projectId is a required field") ∧
    logEvent 0 [ProjectEventType] (Value.vObj []) none =
      .error (.invalidEventData ProjectEventType (Value.vObj [])
        "projectId is a required field" (Value.vObj []) [ProjectEventType]) :=
  ⟨rfl, rfl, rfl, rfl,
    c6_first_rejection_stops_pipeline 0 [ProjectEventType] (Value.vObj []) (Value.vObj [])
      none [] [] ProjectEventType (.validationError "projectId is a required field")
      rfl rfl rfl rfl⟩

/-- C7: The persistence sink runs at most once per invocation — exactly once
on success, after the precondition passed and the full closure validated the
payload into the stored record, and never on failure. -/
theorem c7_sink_only_after_full_validation
    (now : Int) (eventTypes : List EventType) (data : Value)
    (time : Option TimeOrTimeRange) :
    match logEvent now eventTypes data time with
    | .error _ => sinkInvocations (logEvent now eventTypes data time) = 0
    | .ok r =>
      sinkInvocations (logEvent now eventTypes data time) = 1 ∧
      checkEventTypes eventTypes = .ok () ∧
      specValidatePipeline (addEventTypeEach [] eventTypes) data = .ok r.data := by
  cases h : logEvent now eventTypes data time with
  | error e => simp [sinkInvocations]
  | ok r =>
    obtain ⟨hc, hv, -, -, -, -⟩ := logEvent_ok_inv now eventTypes data time r h
    exact ⟨by simp [sinkInvocations], hc,
      (validateEventTypes_ok_iff data eventTypes _ data r.data).mp hv⟩

/-- C8: With the time option absent the record carries the current time as
both start and end and `isWide = false`; with a single instant it carries
that instant as both start and end and `isWide = false`. -/
theorem c8_absent_or_instant_time
    (now : Int) (eventTypes : List EventType) (data : Value) :
    (match logEvent now eventTypes data none with
     | .ok r => r.eventStartedAt = now ∧ r.eventEndedAt = now ∧ r.isWide = false
     | .error _ => True) ∧
    ∀ t : Int,
      match logEvent now eventTypes data (some (.date t)) with
      | .ok r => r.eventStartedAt = t ∧ r.eventEndedAt = t ∧ r.isWide = false
      | .error _ => True := by
  constructor
  · cases h : logEvent now eventTypes data none with
    | error e => trivial
    | ok r =>
      obtain ⟨-, -, -, hw, hs, he⟩ := logEvent_ok_inv now eventTypes data none r h
      exact ⟨hs, he, hw⟩
  · intro t
    cases h : logEvent now eventTypes data (some (.date t)) with
    | error e => trivial
    | ok r =>
      obtain ⟨-, -, -, hw, hs, he⟩ := logEvent_ok_inv now eventTypes data (some (.date t)) r h
      exact ⟨hs, he, hw⟩

/-- C9: An empty requested type list raises no error: the precondition and
the pipeline are vacuous and the sink is invoked exactly once, with an empty
`systemEventTypeIds` list and the payload unchanged. -/
theorem c9_empty_request_succeeds
    (now : Int) (data : Value) (time : Option TimeOrTimeRange) :
    ∃ r, logEvent now [] data time = .ok r ∧ r.systemEventTypeIds = [] ∧
      r.data = data ∧ sinkInvocations (logEvent now [] data time) = 1 := by
  cases time with
  | none => exact ⟨_, rfl, rfl, rfl, rfl⟩
  | some tt =>
    cases tt with
    | date t => exact ⟨_, rfl, rfl, rfl, rfl⟩
    | timeRange s e => exact ⟨_, rfl, rfl, rfl, rfl⟩

/-- An event type whose identifier is neither `$`-prefixed nor registered;
only reachable as an ancestor in C10's scenario. -/
def rogueParent : EventType := .mk "not-in-registry" (.object []) []

/-- A caller-supplied event type whose identifier is the registered
`$project`, but whose `inherits` points at the unregistered `rogueParent`. -/
def rogueChild : EventType := .mk "$project" (.object []) [rogueParent]

/-- C10: The registry index is consulted only for the identifiers of the
directly requested types; the closure is characterized purely by
reachability through the caller-supplied `inherits` references, with no
registry involvement, so an ancestor that is neither `$`-prefixed nor
registered is still included in the closure, validated, and its identifier
persisted. -/
theorem c10_registry_only_checks_requested :
    (∀ (ets : List EventType) (x : EventType),
      x ∈ addEventTypeEach [] ets ↔ ∃ t ∈ ets, Reaches t x) ∧
    checkEventTypes [rogueChild] = .ok () ∧
    strStartsWith rogueParent.id "$" = false ∧
    systemEventTypesByIdHas rogueParent.id = false ∧
    logEvent 0 [rogueChild] (Value.vObj []) none =
      .ok { systemEventTypeIds := ["$project", "not-in-registry"]
            data := Value.vObj []
            isWide := false
            eventStartedAt := 0
            eventEndedAt := 0 } :=
  ⟨fun ets x => mem_closure_iff ets x, rfl, rfl, rfl, rfl⟩

end Stack
